import Mathlib

/-!
Verification of the gops system-introspection aggregator.

The Go sources are shallowly embedded: each gopsutil / external-command
interaction is represented as an explicit environment (a lookup function or a
raw output string), and the pure collection / filtering / normalization logic
of each entry operation is translated function-by-function.  Fallible Go calls
(`v, err := ...`) are modelled with `Option` (`none` = the call returned an
error), and operations whose whole invocation can fail return `Except`.

Go's `strings` / `strconv` helpers are re-implemented over character lists so
that every definition evaluates by kernel computation on concrete inputs.
-/

namespace Gops

/-! ## String helpers mirroring Go's `strings` / `strconv` packages -/

/-- Go `strings.Contains`: `sub` occurs as a contiguous substring of `s`. -/
def goContains (s sub : String) : Bool :=
  decide (sub.toList <:+: s.toList)

/-- Go `strings.ToLower` (character-wise lowering, as `String.toLower`). -/
def goToLower (s : String) : String :=
  String.mk (s.toList.map Char.toLower)

/-- Go `strings.HasPrefix`. -/
def goStartsWith (s pre : String) : Bool :=
  pre.toList.isPrefixOf s.toList

/-- Splitting a character list around a (non-empty) separator, fuelled by the
list length; the splitter of Go `strings.Split`. -/
def splitCharsAux (sep : List Char) : Nat → List Char → List (List Char)
  | 0, l => [l]
  | _ + 1, [] => [[]]
  | fuel + 1, c :: rest =>
    if sep.isPrefixOf (c :: rest) then
      [] :: splitCharsAux sep fuel ((c :: rest).drop sep.length)
    else
      match splitCharsAux sep fuel rest with
      | [] => [[c]]
      | h :: t => (c :: h) :: t

/-- Go `strings.Split` (always called with a non-empty separator here). -/
def goSplitOn (s sep : String) : List String :=
  (splitCharsAux sep.toList s.toList.length s.toList).map String.mk

/-- Go `strings.TrimSpace`. -/
def trimChars (l : List Char) : List Char :=
  ((l.dropWhile Char.isWhitespace).reverse.dropWhile Char.isWhitespace).reverse

def goTrim (s : String) : String :=
  String.mk (trimChars s.toList)

/-- Go `strings.Join`. -/
def goJoin (sep : String) : List String → String
  | [] => ""
  | [x] => x
  | x :: y :: xs => x ++ sep ++ goJoin sep (y :: xs)

/-- Go `strings.ReplaceAll` (non-empty pattern): join the split pieces. -/
def goReplaceAll (s pat repl : String) : String :=
  goJoin repl (goSplitOn s pat)

/-- The field splitter of Go `strings.Fields`: runs of non-whitespace
characters; the accumulator holds the current field reversed. -/
def goFieldsAux : List Char → List Char → List (List Char)
  | [], cur => if cur.isEmpty then [] else [cur.reverse]
  | c :: rest, cur =>
    if c.isWhitespace then
      if cur.isEmpty then goFieldsAux rest []
      else cur.reverse :: goFieldsAux rest []
    else goFieldsAux rest (c :: cur)

/-- Go `strings.Fields`. -/
def goFields (s : String) : List String :=
  (goFieldsAux s.toList []).map String.mk

/-- Go `strings.Trim(s, "\"")`: strip leading and trailing double-quote runs. -/
def trimQuoteChars (s : String) : String :=
  String.mk (((s.toList.dropWhile (· = '"')).reverse.dropWhile (· = '"')).reverse)

def parseDigitsAux : List Char → Nat → Option Nat
  | [], acc => some acc
  | c :: rest, acc =>
    if c.isDigit then parseDigitsAux rest (acc * 10 + (c.toNat - '0'.toNat))
    else none

def parseDigits (l : List Char) : Option Nat :=
  if l.isEmpty then none else parseDigitsAux l 0

/-- Go `strconv.ParseInt(s, 10, 32)`: optional sign, decimal digits, int32
range check; `none` models a returned error. -/
def goParseInt32 (s : String) : Option Int :=
  let signed : Option Int :=
    match s.toList with
    | '+' :: rest => (parseDigits rest).map (fun n => (n : Int))
    | '-' :: rest => (parseDigits rest).map (fun n => -(n : Int))
    | l => (parseDigits l).map (fun n => (n : Int))
  match signed with
  | some v => if -(2 ^ 31) ≤ v ∧ v ≤ 2 ^ 31 - 1 then some v else none
  | none => none

/-! ## Process table model

One record per live process; every gopsutil per-field fetch is independently
fallible, so each field is an `Option` (`none` = that fetch returned an
error).  `memInfo` mirrors `MemoryInfoWithContext`, which can also succeed
with a `nil` pointer (`some none`). -/

structure Proc where
  pid : Int
  name : Option String := none
  exe : Option String := none
  statusFlags : Option (List String) := none
  username : Option String := none
  createTime : Option Int := none
  cpu : Option ℚ := none
  memPercent : Option ℚ := none
  memInfo : Option (Option (Nat × Nat)) := none
  numThreads : Option Int := none
  numFDs : Option Int := none

/-- `process.NewProcessWithContext`: resolving a pid to a live process handle;
`none` models the NotFound error for a pid that does not currently exist. -/
def ProcTable := Int → Option Proc

/-! ## Canonical record types (pkg/types) -/

structure PortInfo where
  port : Nat
  protocol : String
  pid : Int
  name : String
  path : String
  state : String
  localIP : String
deriving DecidableEq, Repr

structure ProcessInfo where
  pid : Int
  name : String
  path : String
  status : String
  user : String
  startTime : String
deriving DecidableEq, Repr

structure WindowInfo where
  title : String
  pid : Int
  process : String
  appName : String
deriving DecidableEq, Repr

structure ResourceUsage where
  pid : Int
  name : String
  cpuPercent : ℚ
  memoryPercent : ℚ
  memoryRSS : Nat
  memoryVMS : Nat
  memoryHuman : String
  cpuHuman : String
  threads : Int
  openFiles : Int
deriving DecidableEq, Repr

structure ServiceInfo where
  name : String
  status : String
  pid : Int := 0
  cpuPercent : ℚ := 0
  memoryPercent : ℚ := 0
  memoryHuman : String := ""
  cpuHuman : String := ""
deriving DecidableEq, Repr

/-! ## Generic selection sort

`GetOpenPorts` sorts with an explicit double loop (swap whenever
`a[i].key > a[j].key`); `GetUserApplications` uses `sort.Slice` with
`pid <` as the comparator.  Both are modelled by the same selection sort,
keyed by an integer projection. -/

/-- One outer-loop iteration of the Go double-loop sort: scan the tail,
swapping the carried element whenever a strictly smaller key is found.
Returns the final carried element (the minimum) and the rewritten tail. -/
def selPass (key : α → Int) : α → List α → α × List α
  | cur, [] => (cur, [])
  | cur, y :: ys =>
    if key y < key cur then
      let p := selPass key y ys
      (p.1, cur :: p.2)
    else
      let p := selPass key cur ys
      (p.1, y :: p.2)

/-- The outer loop, fuelled by the list length so that it is structurally
recursive (the fuel is exact: each pass preserves the tail's length). -/
def selSortAux (key : α → Int) : Nat → List α → List α
  | _, [] => []
  | 0, l => l
  | n + 1, x :: xs => (selPass key x xs).1 :: selSortAux key n (selPass key x xs).2

def selSort (key : α → Int) (l : List α) : List α :=
  selSortAux key l.length l

/-! ## Port collection (internal/port/port.go)

`net.ConnectionsWithContext(ctx, "inet")` is modelled as an explicit list of
raw connections; the per-pid process lookup is a `ProcTable`. -/

structure ConnectionStat where
  status : String
  ip : String
  port : Nat
  pid : Int
deriving DecidableEq, Repr

/-- `getProtocol`: UDP only when the connection status contains "udp". -/
def getProtocol (conn : ConnectionStat) : String :=
  if goContains (goToLower conn.status) "udp" then "UDP" else "TCP"

/-- The map key `fmt.Sprintf("%s:%d", conn.Laddr.IP, port)`. -/
def mkKey (conn : ConnectionStat) : String :=
  conn.ip ++ ":" ++ toString conn.port

/-- The same key recomputed from an emitted record's fields. -/
def recKey (r : PortInfo) : String :=
  r.localIP ++ ":" ++ toString r.port

/-- The process-info block of the loop body: when `conn.Pid > 0` and the pid
resolves, a successful `Name` / `Exe` fetch fills the field, any failure
leaves it `""`. -/
def lookupNamePath (t : ProcTable) (pid : Int) : String × String :=
  if pid > 0 then
    match t pid with
    | some p => (p.name.getD "", p.exe.getD "")
    | none => ("", "")
  else ("", "")

/-- The `types.PortInfo` literal built for one retained connection. -/
def connToInfo (t : ProcTable) (c : ConnectionStat) : PortInfo :=
  { port := c.port
    protocol := getProtocol c
    pid := c.pid
    name := (lookupNamePath t c.pid).1
    path := (lookupNamePath t c.pid).2
    state := c.status
    localIP := c.ip }

/-- A connection that survives both `continue` guards of the loop. -/
def eligible (c : ConnectionStat) : Prop :=
  c.status = "LISTEN" ∧ c.port ≠ 0

instance (c : ConnectionStat) : Decidable (eligible c) := by
  unfold eligible; infer_instance

def mapLookup (k : String) : List (String × PortInfo) → Option PortInfo
  | [] => none
  | (k', v) :: rest => if k' = k then some v else mapLookup k rest

/-- The map-update step of the loop body: a colliding key keeps the existing
record unless the existing one has an empty `Name` and the new one does not.
`portMap` is modelled as an insertion-ordered association list (Go map
iteration order is unspecified; every claim proved below is order-independent
up to the final sort). -/
def insertPort (m : List (String × PortInfo)) (k : String) (v : PortInfo) :
    List (String × PortInfo) :=
  match m with
  | [] => [(k, v)]
  | (k', v') :: rest =>
    if k' = k then
      if v'.name = "" ∧ v.name ≠ "" then (k', v) :: rest else (k', v') :: rest
    else (k', v') :: insertPort rest k v

/-- One iteration of the connection loop of `GetOpenPorts`. -/
def stepConn (t : ProcTable) (m : List (String × PortInfo)) (c : ConnectionStat) :
    List (String × PortInfo) :=
  if c.status = "LISTEN" then
    if c.port = 0 then m
    else insertPort m (mkKey c) (connToInfo t c)
  else m

def buildPortMap (t : ProcTable) (conns : List ConnectionStat) :
    List (String × PortInfo) :=
  conns.foldl (stepConn t) []

/-- `GetOpenPorts`: filter to LISTEN, deduplicate by key, sort by port. -/
def GetOpenPorts (t : ProcTable) (conns : List ConnectionStat) : List PortInfo :=
  selSort (fun r => (r.port : Int)) ((buildPortMap t conns).map Prod.snd)

/-- `GetPortInfoByPort`: filter the full listing by port number. -/
def GetPortInfoByPort (t : ProcTable) (conns : List ConnectionStat) (port : Nat) :
    List PortInfo :=
  (GetOpenPorts t conns).filter (fun p => p.port = port)

/-- `GetPortsByPID`: filter the full listing by pid. -/
def GetPortsByPID (t : ProcTable) (conns : List ConnectionStat) (pid : Int) :
    List PortInfo :=
  (GetOpenPorts t conns).filter (fun p => p.pid = pid)

/-- Abstract effect of `insertPort` on the value stored at one key. -/
def mergeVal (cur : Option PortInfo) (v : PortInfo) : Option PortInfo :=
  match cur with
  | none => some v
  | some old => if old.name = "" ∧ v.name ≠ "" then some v else some old

/-- The raw connections that reach the map under key `k`. -/
def candidates (conns : List ConnectionStat) (k : String) : List ConnectionStat :=
  conns.filter (fun c => decide (eligible c) && (mkKey c == k))

/-- The record that wins the dedup for a key: the first one with a non-empty
process name, else the first one. -/
def winnerOf (l : List PortInfo) : Option PortInfo :=
  match l.find? (fun v => v.name != "") with
  | some v => some v
  | none => l.head?

/-- Every pair stored in the dedup map satisfies the structural invariant. -/
def goodPair (kv : String × PortInfo) : Prop :=
  recKey kv.2 = kv.1 ∧ kv.2.state = "LISTEN" ∧ kv.2.protocol = "TCP"

/-! ## Process listing (internal/process/process.go) -/

/-- `getSystemPrefixes`: OS-specific system process name markers. -/
def getSystemPrefixes (os : String) : List String :=
  if os = "darwin" then
    ["com.apple", "kernel", "WindowServer", "launchd", "syspolicyd", "trustd"]
  else if os = "linux" then
    ["[", "kthreadd", "ksoftirqd", "migration", "rcu_", "systemd", "init"]
  else if os = "windows" then
    ["System", "smss", "csrss", "winlogon", "services", "lsass", "svchost",
      "spoolsv", "SearchIndexer"]
  else ["kernel", "init", "system"]

/-- `isSystemProcess`: case-insensitive prefix match against the marker list. -/
def isSystemProcess (name : String) (markers : List String) : Bool :=
  let nameLower := goToLower name
  markers.any (fun m => goStartsWith (goToLower nameLower) (goToLower m))

/-- `getSystemUsers`: OS-specific system account names. -/
def getSystemUsers (os : String) : List String :=
  if os = "darwin" then
    ["root", "_windowserver", "_appleevents", "_coreaudiod", "_securityd"]
  else if os = "linux" then
    ["root", "daemon", "bin", "sys", "sync", "games", "man", "lp", "mail",
      "news", "uucp", "proxy", "www-data", "backup", "list", "irc", "gnats",
      "nobody"]
  else if os = "windows" then
    ["SYSTEM", "LOCAL SERVICE", "NETWORK SERVICE"]
  else ["root", "system", "daemon"]

/-- `isSystemUser`: case-insensitive equality against the account list. -/
def isSystemUser (username os : String) : Bool :=
  let usernameLower := goToLower username
  (getSystemUsers os).any (fun su => goToLower su == usernameLower)

/-- `formatTime` returns `""` (the source stubs it out). -/
def formatTime (_ : Int) : String := ""

/-- The body of the process loop of `GetUserApplications`: `none` exactly when
one of the `continue` paths fires. -/
def processEntry (os : String) (p : Proc) : Option ProcessInfo :=
  match p.name with
  | none => none
  | some name =>
    if isSystemProcess name (getSystemPrefixes os) then none
    else
      match p.exe with
      | none => none
      | some exe =>
        match p.username with
        | some u =>
          if isSystemUser u os then none
          else if u = "" then none
          else
            some
              { pid := p.pid
                name := name
                path := exe
                status :=
                  match p.statusFlags with
                  | some st => goJoin "," st
                  | none => ""
                user := u
                startTime :=
                  match p.createTime with
                  | some ct => formatTime ct
                  | none => "" }
        | none => none

/-- `GetUserApplications`: filter the process table, sort ascending by pid. -/
def GetUserApplications (os : String) (procs : List Proc) : List ProcessInfo :=
  selSort (fun r => r.pid) (procs.filterMap (processEntry os))

/-! ## Formatting helpers (internal/utils/format.go) -/

def pad2 (n : Nat) : String :=
  if n < 10 then "0" ++ toString n else toString n

/-- Rendering a non-negative rational with two decimal places (`%.2f`);
rounding is half-up, matching `math.Round` on the non-negative values this is
applied to. -/
def formatF2 (x : ℚ) : String :=
  let n : Int := round (x * 100)
  toString (n / 100) ++ "." ++ pad2 (n % 100).toNat

/-- The `div/exp` loop of `FormatBytes`, fuelled (the fuel is generous: the
loop divides by 1024 each step). -/
def fbLoop : Nat → Nat → Nat × Nat → Nat × Nat
  | 0, _, acc => acc
  | fuel + 1, n, acc =>
    if n ≥ 1024 then fbLoop fuel (n / 1024) (acc.1 * 1024, acc.2 + 1)
    else acc

/-- `FormatBytes`: 1024-based units with single-letter suffixes. -/
def FormatBytes (bytes : Nat) : String :=
  if bytes < 1024 then toString bytes ++ " B"
  else
    let de := fbLoop bytes (bytes / 1024) (1024, 0)
    formatF2 ((bytes : ℚ) / (de.1 : ℚ)) ++ " " ++
      String.mk ["KMGTPE".toList.getD de.2 'K'] ++ "B"

/-- `FormatCPU`: clamped rendering of a CPU percentage (`0.01 = mkRat 1 100`). -/
def FormatCPU (cpu : ℚ) : String :=
  if cpu < mkRat 1 100 then "< 0.01%"
  else if cpu ≥ 100 then "100%"
  else formatF2 ((round (cpu * 100) : ℚ) / 100) ++ "%"

/-! ## Resource sampler (internal/resource/resource.go) -/

/-- The two fatal failures of `GetProcessResourceUsage`. -/
inductive RErr where
  | notFound
  | memInfoFailed
deriving DecidableEq, Repr

/-- `GetProcessResourceUsage`: handle resolution and memory-info retrieval are
fatal; every other failed sub-sample leaves its field at the zero value. -/
def GetProcessResourceUsage (t : ProcTable) (pid : Int) : Except RErr ResourceUsage :=
  match t pid with
  | none => .error .notFound
  | some p =>
    let name := p.name.getD ""
    let cpuPercent := p.cpu.getD 0
    let memPercent := p.memPercent.getD 0
    match p.memInfo with
    | none => .error .memInfoFailed
    | some mi =>
      let memoryRSS := (mi.map Prod.fst).getD 0
      let memoryVMS := (mi.map Prod.snd).getD 0
      .ok
        { pid := pid
          name := name
          cpuPercent := cpuPercent
          memoryPercent := memPercent
          memoryRSS := memoryRSS
          memoryVMS := memoryVMS
          memoryHuman := FormatBytes memoryRSS
          cpuHuman := FormatCPU cpuPercent
          threads := p.numThreads.getD 0
          openFiles := p.numFDs.getD 0 }

/-! ## Service listing (internal/service/service.go)

The `launchctl list` / `systemctl` outputs are raw strings (`none` = the
command invocation itself failed); `systemctl show --property=MainPID` is an
extra per-service lookup function. -/

/-- One parsed macOS service line (`fields.length ≥ 3` holds at call sites). -/
def macServiceRecord (t : ProcTable) (fields : List String) : ServiceInfo :=
  let pidStr := fields.getD 0 ""
  let status := fields.getD 1 ""
  let name := goJoin " " (fields.drop 2)
  match goParseInt32 pidStr with
  | none => { name := name, status := status }
  | some p =>
    if p ≤ 0 then { name := name, status := status }
    else
      match GetProcessResourceUsage t p with
      | .error _ => { name := name, status := status, pid := p }
      | .ok u =>
        { name := name
          status := status
          pid := p
          cpuPercent := u.cpuPercent
          memoryPercent := u.memoryPercent
          memoryHuman := u.memoryHuman
          cpuHuman := u.cpuHuman }

def macServiceLine (t : ProcTable) (line0 : String) : Option ServiceInfo :=
  let line := goTrim line0
  if line = "" then none
  else
    let fields := goFields line
    if fields.length < 3 then none
    else some (macServiceRecord t fields)

/-- `getMacOSServices`: header line skipped; only the `launchctl list`
invocation failure is fatal. -/
def getMacOSServices (t : ProcTable) (rawOpt : Option String) :
    Except Unit (List ServiceInfo) :=
  match rawOpt with
  | none => .error ()
  | some raw => .ok (((goSplitOn (goTrim raw) "\n").drop 1).filterMap (macServiceLine t))

/-- One parsed Linux service line (`fields.length ≥ 4` holds at call sites):
the `systemctl show` pid lookup and the resource sample both degrade, never
fail the call. -/
def linuxServiceRecord (t : ProcTable) (showMainPID : String → Option String)
    (fields : List String) : ServiceInfo :=
  let name := goReplaceAll (fields.getD 0 "") ".service" ""
  let status := fields.getD 2 ""
  match showMainPID (fields.getD 0 "") with
  | none => { name := name, status := status }
  | some out =>
    let pidStr := goTrim out
    if pidStr ≠ "0" ∧ pidStr ≠ "" then
      match goParseInt32 pidStr with
      | some p =>
        if p > 0 then
          match GetProcessResourceUsage t p with
          | .ok u =>
            { name := name
              status := status
              pid := p
              cpuPercent := u.cpuPercent
              memoryPercent := u.memoryPercent
              memoryHuman := u.memoryHuman
              cpuHuman := u.cpuHuman }
          | .error _ => { name := name, status := status, pid := p }
        else { name := name, status := status }
      | none => { name := name, status := status }
    else { name := name, status := status }

def linuxServiceLine (t : ProcTable) (showMainPID : String → Option String)
    (line0 : String) : Option ServiceInfo :=
  let line := goTrim line0
  if line = "" then none
  else
    let fields := goFields line
    if fields.length < 4 then none
    else some (linuxServiceRecord t showMainPID fields)

/-- `getLinuxServices`: only the `systemctl list-units` invocation failure is
fatal. -/
def getLinuxServices (t : ProcTable) (showMainPID : String → Option String)
    (rawOpt : Option String) : Except Unit (List ServiceInfo) :=
  match rawOpt with
  | none => .error ()
  | some raw => .ok ((goSplitOn (goTrim raw) "\n").filterMap (linuxServiceLine t showMainPID))

/-! ## Window listing (internal/window/window.go) -/

/-- External commands used by the window collectors. -/
structure WinEnv where
  pgrepOut : String → Option String
  psCommOut : Int → Option String
  goos : String

/-- `getPIDForApp`: `pgrep -f` output parsed as an int32; any failure yields 0
(`pid, _ := strconv.ParseInt(...)` leaves the zero value on error). -/
def getPIDForApp (env : WinEnv) (appName : String) : Int :=
  match env.pgrepOut appName with
  | none => 0
  | some out => (goParseInt32 (goTrim out)).getD 0

/-- `getProcessName`: `ps -o comm=` on Linux, `""` elsewhere or on failure. -/
def getProcessName (env : WinEnv) (pid : Int) : String :=
  if env.goos = "linux" then
    match env.psCommOut pid with
    | some out => goTrim out
    | none => ""
  else ""

/-- The shared emission guard of both macOS parsers: emit only when both the
app name and the title are non-empty. -/
def guardedWindow (title : String) (pid : Int) (appName : String) : Option WindowInfo :=
  if appName ≠ "" ∧ title ≠ "" then
    some { title := title, pid := pid, process := appName, appName := appName }
  else none

/-- One line of the primary macOS parse (split on `", "`, then on `","`). -/
def parseMacLine (env : WinEnv) (line0 : String) : Option WindowInfo :=
  let line := goTrim line0
  if line = "" ∨ goContains line "missing value" then none
  else if goContains line "text" then none
  else
    let parts := goSplitOn line ","
    if parts.length ≥ 2 then
      let appName := goTrim (trimQuoteChars (parts.getD 0 ""))
      let title := goTrim (trimQuoteChars (goJoin "," ((parts.drop 1).dropLast)))
      let pid :=
        if parts.length ≥ 3 then
          match goParseInt32 (goTrim (parts.getLastD "")) with
          | some p => p
          | none => getPIDForApp env appName
        else getPIDForApp env appName
      guardedWindow title pid appName
    else none

def parseMacPrimary (env : WinEnv) (raw : String) : List WindowInfo :=
  (goSplitOn (goTrim raw) ", ").filterMap (parseMacLine env)

/-- One line of the fallback macOS parse (`|`-separated fields). -/
def parseMacAltLine (env : WinEnv) (line0 : String) : Option WindowInfo :=
  let line := goTrim line0
  if line = "" then none
  else
    let parts := goSplitOn line "|"
    if parts.length ≥ 3 then
      let appName := goTrim (parts.getD 0 "")
      let title := goTrim (parts.getD 1 "")
      let pid :=
        match goParseInt32 (goTrim (parts.getD 2 "")) with
        | some p => p
        | none => getPIDForApp env appName
      guardedWindow title pid appName
    else none

def parseMacAlt (env : WinEnv) (raw : String) : List WindowInfo :=
  (goSplitOn (goTrim raw) "\n").filterMap (parseMacAltLine env)

/-- `getMacOSWindows`: primary parse, falling back to the alternative
AppleScript when it yields zero results. -/
def getMacOSWindows (env : WinEnv) (raw rawAlt : Option String) :
    Except Unit (List WindowInfo) :=
  match raw with
  | none => .error ()
  | some out =>
    let ws := parseMacPrimary env out
    if ws = [] then
      match rawAlt with
      | none => .error ()
      | some outAlt => .ok (parseMacAlt env outAlt)
    else .ok ws

/-- One line of `wmctrl -lp` output: no guard on the resolved process name. -/
def linuxWinLine (env : WinEnv) (line : String) : Option WindowInfo :=
  let parts := goFields line
  if parts.length ≥ 5 then
    let pid := (goParseInt32 (parts.getD 2 "")).getD 0
    let title := goJoin " " (parts.drop 4)
    let procName := getProcessName env pid
    some { title := title, pid := pid, process := procName, appName := procName }
  else none

def getLinuxWindows (env : WinEnv) (raw : Option String) :
    Except Unit (List WindowInfo) :=
  match raw with
  | none => .error ()
  | some out => .ok ((goSplitOn (goTrim out) "\n").filterMap (linuxWinLine env))

/-- One line of the PowerShell output (`pid|name|title`): a pid parse failure
skips the line, empty name/title fields are not guarded. -/
def winWinLine (line0 : String) : Option WindowInfo :=
  let line := goTrim line0
  if line = "" then none
  else
    let parts := goSplitOn line "|"
    if parts.length ≥ 3 then
      let processName := goTrim (parts.getD 1 "")
      let title := goTrim (parts.getD 2 "")
      match goParseInt32 (goTrim (parts.getD 0 "")) with
      | none => none
      | some pid =>
        some { title := title, pid := pid, process := processName, appName := processName }
    else none

def getWindowsWindows (raw : Option String) : Except Unit (List WindowInfo) :=
  match raw with
  | none => .error ()
  | some out => .ok ((goSplitOn (goTrim out) "\n").filterMap winWinLine)

/-- `GetOpenWindows`: platform dispatch; unsupported platforms succeed with an
empty listing. -/
def GetOpenWindows (env : WinEnv) (macRaw macAltRaw linuxRaw winRaw : Option String) :
    Except Unit (List WindowInfo) :=
  if env.goos = "darwin" then getMacOSWindows env macRaw macAltRaw
  else if env.goos = "linux" then getLinuxWindows env linuxRaw
  else if env.goos = "windows" then getWindowsWindows winRaw
  else .ok []

/-! ## Concrete inputs used by the witnesses and counterexamples -/

def wProc9 : Proc := { pid := 9, name := some "nginx", exe := some "/usr/bin/nginx" }

def wT : ProcTable := fun pid => if pid = 9 then some wProc9 else none

def wConnA : ConnectionStat := { status := "LISTEN", ip := "0.0.0.0", port := 8080, pid := 0 }

def wConnB : ConnectionStat := { status := "LISTEN", ip := "0.0.0.0", port := 8080, pid := 9 }

def wConnC : ConnectionStat := { status := "ESTABLISHED", ip := "10.0.0.5", port := 443, pid := 9 }

def wConns : List ConnectionStat := [wConnA, wConnC, wConnB]

def wKey : String := "0.0.0.0:8080"

def wRec : PortInfo :=
  { port := 8080, protocol := "TCP", pid := 9, name := "nginx",
    path := "/usr/bin/nginx", state := "LISTEN", localIP := "0.0.0.0" }

def zConnA : ConnectionStat := { status := "LISTEN", ip := "0.0.0.0", port := 0, pid := 1 }

def zConnB : ConnectionStat := { status := "LISTEN", ip := "0.0.0.0", port := 0, pid := 2 }

def tNone : ProcTable := fun _ => none

def e0 : Proc := { pid := 5, name := some "myapp", exe := some "", username := some "alice" }

def e1 : Proc := { pid := 6, name := some "myapp2", exe := none, username := some "alice" }

def e2 : Proc :=
  { pid := 7, name := some "Chrome", exe := some "/usr/bin/chrome", username := some "alice" }

def linEnv : WinEnv := { pgrepOut := fun _ => none, psCommOut := fun _ => none, goos := "linux" }

def linRaw : String := "0x01 0 123 host my window"

def macEnv : WinEnv := { pgrepOut := fun _ => none, psCommOut := fun _ => none, goos := "darwin" }

def macRaw : String := "Safari,Start Page,321"

def rProcA : Proc :=
  { pid := 7, memInfo := some (some (512, 700)), numFDs := some 3 }

def rProcB : Proc := { pid := 8, name := some "worker" }

def rT : ProcTable :=
  fun pid => if pid = 7 then some rProcA else if pid = 8 then some rProcB else none

def rRecA : ResourceUsage :=
  { pid := 7, name := "", cpuPercent := 0, memoryPercent := 0, memoryRSS := 512,
    memoryVMS := 700, memoryHuman := FormatBytes 512, cpuHuman := FormatCPU 0,
    threads := 0, openFiles := 3 }

def cProc150 : Proc := { pid := 1, cpu := some 150, memInfo := some (some (512, 600)) }

def cT150 : ProcTable := fun pid => if pid = 1 then some cProc150 else none

def svFieldsMac : List String := ["42", "0", "com.example.app"]

def svFieldsLinux : List String := ["nginx.service", "loaded", "active", "running"]

def svShow : String → Option String :=
  fun u => if u = "nginx.service" then some "42\n" else none

def chromeRec : ProcessInfo :=
  { pid := 7, name := "Chrome", path := "/usr/bin/chrome", status := "",
    user := "alice", startTime := "" }

def macRec : WindowInfo :=
  { title := "Start Page", pid := 321, process := "Safari", appName := "Safari" }

def linRec : WindowInfo :=
  { title := "my window", pid := 123, process := "", appName := "" }

def c150Rec : ResourceUsage :=
  { pid := 1, name := "", cpuPercent := 150, memoryPercent := 0, memoryRSS := 512,
    memoryVMS := 600, memoryHuman := FormatBytes 512, cpuHuman := FormatCPU 150,
    threads := 0, openFiles := 0 }

/-! ## Sorting lemmas -/

theorem selPass_snd_length (key : α → Int) (cur : α) (l : List α) :
    ((selPass key cur l).2).length = l.length := by
  induction l generalizing cur with
  | nil => rfl
  | cons y ys ih =>
    simp only [selPass]
    by_cases h : key y < key cur
    · simp [h, ih y]
    · simp [h, ih cur]

theorem selPass_perm (key : α → Int) (cur : α) (l : List α) :
    List.Perm ((selPass key cur l).1 :: (selPass key cur l).2) (cur :: l) := by
  induction l generalizing cur with
  | nil => exact List.Perm.refl _
  | cons y ys ih =>
    simp only [selPass]
    by_cases h : key y < key cur
    · simp only [h, if_pos]
      have s1 : List.Perm
          ((selPass key y ys).1 :: cur :: (selPass key y ys).2)
          (cur :: (selPass key y ys).1 :: (selPass key y ys).2) :=
        List.Perm.swap _ _ _
      exact s1.trans ((ih y).cons cur)
    · simp only [h, if_neg, not_false_iff]
      have s1 : List.Perm
          ((selPass key cur ys).1 :: y :: (selPass key cur ys).2)
          (y :: (selPass key cur ys).1 :: (selPass key cur ys).2) :=
        List.Perm.swap _ _ _
      have s3 : List.Perm (y :: cur :: ys) (cur :: y :: ys) := List.Perm.swap _ _ _
      exact s1.trans (((ih cur).cons y).trans s3)

theorem selPass_min (key : α → Int) (cur : α) (l : List α) :
    key (selPass key cur l).1 ≤ key cur ∧
      ∀ y ∈ (selPass key cur l).2, key (selPass key cur l).1 ≤ key y := by
  induction l generalizing cur with
  | nil => exact ⟨le_refl _, by simp [selPass]⟩
  | cons y ys ih =>
    simp only [selPass]
    by_cases h : key y < key cur
    · simp only [h, if_pos]
      obtain ⟨h1, h2⟩ := ih y
      refine ⟨le_of_lt (lt_of_le_of_lt h1 h), ?_⟩
      intro z hz
      rcases List.mem_cons.mp hz with hz | hz
      · exact hz ▸ le_of_lt (lt_of_le_of_lt h1 h)
      · exact h2 z hz
    · simp only [h, if_neg, not_false_iff]
      obtain ⟨h1, h2⟩ := ih cur
      refine ⟨h1, ?_⟩
      intro z hz
      rcases List.mem_cons.mp hz with hz | hz
      · exact hz ▸ le_trans h1 (le_of_not_lt h)
      · exact h2 z hz

theorem selSortAux_perm (key : α → Int) :
    ∀ (n : Nat) (l : List α), l.length ≤ n → List.Perm (selSortAux key n l) l := by
  intro n
  induction n with
  | zero =>
    intro l hl
    cases l with
    | nil => exact List.Perm.refl _
    | cons x xs => simp at hl
  | succ n ih =>
    intro l hl
    cases l with
    | nil => exact List.Perm.refl _
    | cons x xs =>
      rw [selSortAux]
      have hlen : ((selPass key x xs).2).length ≤ n := by
        rw [selPass_snd_length]
        simpa using hl
      exact ((ih _ hlen).cons _).trans (selPass_perm key x xs)

theorem selSort_perm (key : α → Int) (l : List α) : List.Perm (selSort key l) l :=
  selSortAux_perm key l.length l (le_refl _)

theorem selSortAux_pairwise (key : α → Int) :
    ∀ (n : Nat) (l : List α), l.length ≤ n →
      List.Pairwise (fun a b => key a ≤ key b) (selSortAux key n l) := by
  intro n
  induction n with
  | zero =>
    intro l hl
    cases l with
    | nil => exact List.Pairwise.nil
    | cons x xs => simp at hl
  | succ n ih =>
    intro l hl
    cases l with
    | nil => exact List.Pairwise.nil
    | cons x xs =>
      rw [selSortAux]
      have hlen : ((selPass key x xs).2).length ≤ n := by
        rw [selPass_snd_length]
        simpa using hl
      refine List.pairwise_cons.mpr ⟨?_, ih _ hlen⟩
      intro y hy
      have hy' : y ∈ (selPass key x xs).2 :=
        (selSortAux_perm key n _ hlen).mem_iff.mp hy
      exact (selPass_min key x xs).2 y hy'

theorem selSort_pairwise (key : α → Int) (l : List α) :
    List.Pairwise (fun a b => key a ≤ key b) (selSort key l) :=
  selSortAux_pairwise key l.length l (le_refl _)

/-! ## Port map lemmas -/

theorem mapLookup_insert_self (m : List (String × PortInfo)) (k : String) (v : PortInfo) :
    mapLookup k (insertPort m k v) = mergeVal (mapLookup k m) v := by
  induction m with
  | nil => simp [insertPort, mapLookup, mergeVal]
  | cons kv rest ih =>
    obtain ⟨k', v'⟩ := kv
    by_cases hk : k' = k
    · subst hk
      by_cases hrep : v'.name = "" ∧ v.name ≠ ""
      · simp [insertPort, mapLookup, mergeVal, hrep.1, hrep.2]
      · simp [insertPort, mapLookup, mergeVal, hrep]
    · simp [insertPort, mapLookup, hk, ih]

theorem mapLookup_insert_ne (m : List (String × PortInfo)) {k k' : String} (v : PortInfo)
    (h : k' ≠ k) : mapLookup k' (insertPort m k v) = mapLookup k' m := by
  induction m with
  | nil => simp [insertPort, mapLookup, Ne.symm h]
  | cons kv rest ih =>
    obtain ⟨k₀, v₀⟩ := kv
    by_cases hk : k₀ = k
    · subst hk
      have hne : ¬ k₀ = k' := Ne.symm h
      by_cases hrep : v₀.name = "" ∧ v.name ≠ ""
      · simp [insertPort, mapLookup, hrep.1, hrep.2, hne]
      · simp [insertPort, mapLookup, hrep, hne]
    · simp [insertPort, mapLookup, hk, ih]

theorem insertPort_forall {P : String × PortInfo → Prop}
    (m : List (String × PortInfo)) (k : String) (v : PortInfo)
    (hm : ∀ kv ∈ m, P kv) (hv : P (k, v)) :
    ∀ kv ∈ insertPort m k v, P kv := by
  induction m with
  | nil => simpa [insertPort] using hv
  | cons kv₀ rest ih =>
    obtain ⟨k₀, v₀⟩ := kv₀
    by_cases hk : k₀ = k
    · subst hk
      by_cases hrep : v₀.name = "" ∧ v.name ≠ ""
      · intro kv hkv
        rw [show insertPort ((k₀, v₀) :: rest) k₀ v = (k₀, v) :: rest by
          simp [insertPort, hrep.1, hrep.2]] at hkv
        rcases List.mem_cons.mp hkv with h | h
        · exact h ▸ hv
        · exact hm kv (List.mem_cons_of_mem _ h)
      · intro kv hkv
        rw [show insertPort ((k₀, v₀) :: rest) k₀ v = (k₀, v₀) :: rest by
          simp [insertPort, hrep]] at hkv
        exact hm kv hkv
    · intro kv hkv
      rw [show insertPort ((k₀, v₀) :: rest) k v = (k₀, v₀) :: insertPort rest k v by
        simp [insertPort, hk]] at hkv
      rcases List.mem_cons.mp hkv with h | h
      · exact h ▸ hm _ (List.mem_cons_self _ _)
      · exact ih (fun kv hkv => hm kv (List.mem_cons_of_mem _ hkv)) kv h

theorem insertPort_keys (m : List (String × PortInfo)) (k : String) (v : PortInfo) :
    (insertPort m k v).map Prod.fst =
      if k ∈ m.map Prod.fst then m.map Prod.fst else m.map Prod.fst ++ [k] := by
  induction m with
  | nil => simp [insertPort]
  | cons kv rest ih =>
    obtain ⟨k₀, v₀⟩ := kv
    by_cases hk : k₀ = k
    · subst hk
      by_cases hrep : v₀.name = "" ∧ v.name ≠ ""
      · simp [insertPort, hrep.1, hrep.2]
      · simp [insertPort, hrep]
    · have hne : ¬ k = k₀ := fun hh => hk hh.symm
      by_cases hmem : k ∈ rest.map Prod.fst
      · simp [insertPort, hk, ih, hmem, hne]
      · simp [insertPort, hk, ih, hmem, hne]

theorem insertPort_nodup_keys (m : List (String × PortInfo)) (k : String) (v : PortInfo)
    (h : (m.map Prod.fst).Nodup) : ((insertPort m k v).map Prod.fst).Nodup := by
  rw [insertPort_keys]
  by_cases hmem : k ∈ m.map Prod.fst
  · simpa [hmem] using h
  · simp only [hmem, if_false]
    simpa [List.nodup_append, hmem] using h

theorem mapLookup_eq_none (m : List (String × PortInfo)) (k : String)
    (h : k ∉ m.map Prod.fst) : mapLookup k m = none := by
  induction m with
  | nil => rfl
  | cons kv rest ih =>
    obtain ⟨k₀, v₀⟩ := kv
    simp only [List.map_cons, List.mem_cons] at h
    push_neg at h
    simp [mapLookup, Ne.symm h.1, ih h.2]

theorem foldl_stepConn_lookup (t : ProcTable) (conns : List ConnectionStat) :
    ∀ (m : List (String × PortInfo)) (k : String),
      mapLookup k (List.foldl (stepConn t) m conns) =
        List.foldl (fun cur c => mergeVal cur (connToInfo t c)) (mapLookup k m)
          (candidates conns k) := by
  induction conns with
  | nil => intro m k; rfl
  | cons c cs ih =>
    intro m k
    rw [List.foldl_cons, ih]
    by_cases hs : c.status = "LISTEN"
    · by_cases hp : c.port = 0
      · have hstep : stepConn t m c = m := by simp [stepConn, hs, hp]
        have hcand : candidates (c :: cs) k = candidates cs k := by
          simp [candidates, List.filter_cons, eligible, hp]
        rw [hstep, hcand]
      · by_cases hkk : mkKey c = k
        · have hstep : stepConn t m c = insertPort m (mkKey c) (connToInfo t c) := by
            simp [stepConn, hs, hp]
          have hcand : candidates (c :: cs) k = c :: candidates cs k := by
            simp [candidates, List.filter_cons, eligible, hs, hp, hkk]
          rw [hstep, hkk, mapLookup_insert_self, hcand, List.foldl_cons]
        · have hstep : stepConn t m c = insertPort m (mkKey c) (connToInfo t c) := by
            simp [stepConn, hs, hp]
          have hcand : candidates (c :: cs) k = candidates cs k := by
            simp [candidates, List.filter_cons, hkk]
          rw [hstep, mapLookup_insert_ne _ _ (Ne.symm hkk), hcand]
    · have hstep : stepConn t m c = m := by simp [stepConn, hs]
      have hcand : candidates (c :: cs) k = candidates cs k := by
        simp [candidates, List.filter_cons, eligible, hs]
      rw [hstep, hcand]

theorem foldl_merge_keep (v : PortInfo) (hv : v.name ≠ "") (l : List PortInfo) :
    List.foldl mergeVal (some v) l = some v := by
  induction l with
  | nil => rfl
  | cons x xs ih =>
    rw [List.foldl_cons, show mergeVal (some v) x = some v by simp [mergeVal, hv], ih]

theorem foldl_merge_empty (v : PortInfo) (hv : v.name = "") (l : List PortInfo) :
    List.foldl mergeVal (some v) l =
      some ((l.find? (fun x => x.name != "")).getD v) := by
  induction l with
  | nil => rfl
  | cons x xs ih =>
    rw [List.foldl_cons]
    by_cases hx : x.name = ""
    · rw [show mergeVal (some v) x = some v by simp [mergeVal, hx], ih,
        List.find?_cons_of_neg _ (by simp [hx])]
    · rw [show mergeVal (some v) x = some x by simp [mergeVal, hv, hx],
        foldl_merge_keep x hx, List.find?_cons_of_pos _ (by simp [hx])]
      rfl

theorem foldl_merge_none (l : List PortInfo) :
    List.foldl mergeVal none l = winnerOf l := by
  cases l with
  | nil => rfl
  | cons v vs =>
    rw [List.foldl_cons, show mergeVal none v = some v from rfl]
    by_cases hv : v.name = ""
    · rw [foldl_merge_empty v hv]
      unfold winnerOf
      rw [List.find?_cons_of_neg _ (by simp [hv])]
      cases hfind : vs.find? (fun x => x.name != "") with
      | none => simp [hfind]
      | some w => simp [hfind]
    · rw [foldl_merge_keep v hv]
      unfold winnerOf
      rw [List.find?_cons_of_pos _ (by simp [hv])]

/-- The final content of the dedup map at any key: the first eligible
connection with a non-empty resolved process name wins, else the first
eligible connection. -/
theorem buildPortMap_lookup (t : ProcTable) (conns : List ConnectionStat) (k : String) :
    mapLookup k (buildPortMap t conns) =
      winnerOf ((candidates conns k).map (connToInfo t)) := by
  rw [buildPortMap, foldl_stepConn_lookup t conns [] k,
    show mapLookup k [] = none from rfl, ← foldl_merge_none, List.foldl_map]

theorem values_filter_nil (k : String) (m : List (String × PortInfo))
    (hkeys : ∀ kv ∈ m, recKey kv.2 = kv.1) (h : k ∉ m.map Prod.fst) :
    (m.map Prod.snd).filter (fun x => recKey x == k) = [] := by
  induction m with
  | nil => rfl
  | cons kv rest ih =>
    obtain ⟨k₀, v₀⟩ := kv
    simp only [List.map_cons, List.mem_cons] at h
    push_neg at h
    have hr : recKey v₀ = k₀ := hkeys _ (List.mem_cons_self _ _)
    have hpred : (recKey v₀ == k) = false := by
      simp [hr, Ne.symm h.1]
    simp only [List.map_cons, List.filter_cons, hpred, Bool.false_eq_true, if_false]
    exact ih (fun kv hkv => hkeys kv (List.mem_cons_of_mem _ hkv)) h.2

theorem values_filter_eq (k : String) (w : PortInfo) (m : List (String × PortInfo))
    (hkeys : ∀ kv ∈ m, recKey kv.2 = kv.1) (hnd : (m.map Prod.fst).Nodup)
    (hl : mapLookup k m = some w) :
    (m.map Prod.snd).filter (fun x => recKey x == k) = [w] := by
  induction m with
  | nil => exact absurd hl (by simp [mapLookup])
  | cons kv rest ih =>
    obtain ⟨k₀, v₀⟩ := kv
    simp only [List.map_cons, List.nodup_cons] at hnd
    have hr : recKey v₀ = k₀ := hkeys _ (List.mem_cons_self _ _)
    by_cases hk : k₀ = k
    · subst hk
      have hw : v₀ = w := by simpa [mapLookup] using hl
      subst hw
      have hpred : (recKey v₀ == k₀) = true := by simp [hr]
      simp only [List.map_cons, List.filter_cons, hpred, if_true]
      rw [values_filter_nil k₀ rest
        (fun kv hkv => hkeys kv (List.mem_cons_of_mem _ hkv)) hnd.1]
    · have hl' : mapLookup k rest = some w := by simpa [mapLookup, hk] using hl
      have hpred : (recKey v₀ == k) = false := by simp [hr, hk]
      simp only [List.map_cons, List.filter_cons, hpred, Bool.false_eq_true, if_false]
      exact ih (fun kv hkv => hkeys kv (List.mem_cons_of_mem _ hkv)) hnd.2 hl'

theorem getProtocol_of_listen (c : ConnectionStat) (h : c.status = "LISTEN") :
    getProtocol c = "TCP" := by
  rw [getProtocol, h]
  decide

theorem buildPortMap_inv (t : ProcTable) (conns : List ConnectionStat) :
    (∀ kv ∈ buildPortMap t conns, goodPair kv) ∧
      ((buildPortMap t conns).map Prod.fst).Nodup := by
  rw [buildPortMap]
  suffices h : ∀ m, (∀ kv ∈ m, goodPair kv) → (m.map Prod.fst).Nodup →
      (∀ kv ∈ List.foldl (stepConn t) m conns, goodPair kv) ∧
        ((List.foldl (stepConn t) m conns).map Prod.fst).Nodup by
    exact h [] (by simp) (by simp)
  induction conns with
  | nil => intro m h1 h2; exact ⟨h1, h2⟩
  | cons c cs ih =>
    intro m h1 h2
    rw [List.foldl_cons]
    by_cases hs : c.status = "LISTEN"
    · by_cases hp : c.port = 0
      · rw [show stepConn t m c = m by simp [stepConn, hs, hp]]
        exact ih m h1 h2
      · rw [show stepConn t m c = insertPort m (mkKey c) (connToInfo t c) by
          simp [stepConn, hs, hp]]
        refine ih _ ?_ (insertPort_nodup_keys m _ _ h2)
        refine insertPort_forall m _ _ h1 ?_
        exact ⟨rfl, hs, getProtocol_of_listen c hs⟩
    · rw [show stepConn t m c = m by simp [stepConn, hs]]
      exact ih m h1 h2

theorem winnerOf_of_ne_nil (l : List PortInfo) (h : l ≠ []) :
    ∃ w, winnerOf l = some w := by
  cases l with
  | nil => exact absurd rfl h
  | cons v vs =>
    unfold winnerOf
    cases hf : (v :: vs).find? (fun x => x.name != "") with
    | some w => exact ⟨w, rfl⟩
    | none => exact ⟨v, rfl⟩

theorem mem_getOpenPorts (t : ProcTable) (conns : List ConnectionStat) (r : PortInfo)
    (h : r ∈ GetOpenPorts t conns) : r.state = "LISTEN" ∧ r.protocol = "TCP" := by
  have hmem : r ∈ (buildPortMap t conns).map Prod.snd :=
    (selSort_perm _ _).mem_iff.mp h
  obtain ⟨kv, hkv, hr⟩ := List.mem_map.mp hmem
  have hg := (buildPortMap_inv t conns).1 kv hkv
  exact ⟨hr ▸ hg.2.1, hr ▸ hg.2.2⟩

theorem foldl_stepConn_filter (t : ProcTable) :
    ∀ (conns : List ConnectionStat) (m : List (String × PortInfo)),
      List.foldl (stepConn t) m conns =
        List.foldl (stepConn t) m (conns.filter (fun c => c.status == "LISTEN")) := by
  intro conns
  induction conns with
  | nil => intro m; rfl
  | cons c cs ih =>
    intro m
    rw [List.foldl_cons, List.filter_cons]
    by_cases hs : c.status = "LISTEN"
    · rw [if_pos (by simp [hs]), List.foldl_cons]
      exact ih (stepConn t m c)
    · rw [if_neg (by simp [hs]), show stepConn t m c = m by simp [stepConn, hs]]
      exact ih m

/-! ## Claim theorems: ports -/

/-- C1 (corrected): for every key with at least one raw LISTEN connection of
nonzero port, the normalized result of `GetOpenPorts` contains exactly one
record for that key, namely the first colliding connection whose resolved
`processName` is non-empty when one exists (so non-empty beats empty), and the
first-encountered colliding connection otherwise.  (`winnerOf` picks the first
entry with non-empty name, else the first entry.) -/
theorem port_dedup_winner (t : ProcTable) (conns : List ConnectionStat) (k : String)
    (h : candidates conns k ≠ []) :
    ∃ w, winnerOf ((candidates conns k).map (connToInfo t)) = some w ∧
      (GetOpenPorts t conns).filter (fun r => recKey r == k) = [w] := by
  have hmap : (candidates conns k).map (connToInfo t) ≠ [] := by
    simpa using h
  obtain ⟨w, hw⟩ := winnerOf_of_ne_nil _ hmap
  refine ⟨w, hw, ?_⟩
  have hlook : mapLookup k (buildPortMap t conns) = some w :=
    (buildPortMap_lookup t conns k).trans hw
  have hinv := buildPortMap_inv t conns
  have hfil :
      ((buildPortMap t conns).map Prod.snd).filter (fun x => recKey x == k) = [w] :=
    values_filter_eq k w _ (fun kv hkv => (hinv.1 kv hkv).1) hinv.2 hlook
  have hperm :
      List.Perm ((GetOpenPorts t conns).filter (fun r => recKey r == k))
        (((buildPortMap t conns).map Prod.snd).filter (fun x => recKey x == k)) :=
    (selSort_perm _ _).filter _
  rw [hfil] at hperm
  exact List.perm_singleton.mp hperm

/-- Witness for C1: two LISTEN connections on `0.0.0.0:8080`, the first with
no resolvable process, the second resolving to "nginx"; the dedup keeps
exactly the "nginx" record. -/
theorem port_dedup_winner_witness :
    candidates wConns wKey ≠ [] ∧
      ∃ w, winnerOf ((candidates wConns wKey).map (connToInfo wT)) = some w ∧
        (GetOpenPorts wT wConns).filter (fun r => recKey r == wKey) = [w] :=
  ⟨by decide, port_dedup_winner wT wConns wKey (by decide)⟩

/-- Counterexample for C1 as stated: two raw LISTEN connections share the
natural key `(0.0.0.0, 0)`, yet the normalized result contains no record at
all for that key (port 0 is dropped before deduplication), not exactly one. -/
theorem port_dedup_counterexample :
    zConnA.status = "LISTEN" ∧ zConnB.status = "LISTEN" ∧
      zConnA.ip = zConnB.ip ∧ zConnA.port = zConnB.port ∧
      (GetOpenPorts tNone [zConnA, zConnB]).filter (fun r => recKey r == mkKey zConnA)
        = [] := by
  decide

/-- C2: every record returned by `GetOpenPorts` — and hence by the filtered
variants `GetPortInfoByPort` and `GetPortsByPID` — has `socketState` equal to
"LISTEN", and non-LISTEN raw connections contribute nothing to the result. -/
theorem listen_only_invariant (t : ProcTable) (conns : List ConnectionStat) :
    (∀ r ∈ GetOpenPorts t conns, r.state = "LISTEN") ∧
      GetOpenPorts t conns =
        GetOpenPorts t (conns.filter (fun c => c.status == "LISTEN")) ∧
      (∀ n, ∀ r ∈ GetPortInfoByPort t conns n, r.state = "LISTEN") ∧
      (∀ q, ∀ r ∈ GetPortsByPID t conns q, r.state = "LISTEN") := by
  refine ⟨fun r h => (mem_getOpenPorts t conns r h).1, ?_, ?_, ?_⟩
  · rw [GetOpenPorts, GetOpenPorts, buildPortMap, buildPortMap,
      foldl_stepConn_filter]
  · intro n r h
    exact (mem_getOpenPorts t conns r (List.mem_of_mem_filter h)).1
  · intro q r h
    exact (mem_getOpenPorts t conns r (List.mem_of_mem_filter h)).1

/-- Witness for C2: the record collected from the concrete connection list
(which also contains an ESTABLISHED connection) is in LISTEN state. -/
theorem listen_only_invariant_witness :
    wRec ∈ GetOpenPorts wT wConns ∧ wRec.state = "LISTEN" :=
  ⟨by decide, (listen_only_invariant wT wConns).1 wRec (by decide)⟩

/-- C5: the filtered variants are computed from the full normalized listing:
each is a sublist of `GetOpenPorts`, and membership is exactly membership in
the unfiltered listing plus the port (resp. pid) condition. -/
theorem post_normalization_filter (t : ProcTable) (conns : List ConnectionStat)
    (n : Nat) (q : Int) :
    List.Sublist (GetPortInfoByPort t conns n) (GetOpenPorts t conns) ∧
      (∀ r, r ∈ GetPortInfoByPort t conns n ↔
        r ∈ GetOpenPorts t conns ∧ r.port = n) ∧
      List.Sublist (GetPortsByPID t conns q) (GetOpenPorts t conns) ∧
      (∀ r, r ∈ GetPortsByPID t conns q ↔
        r ∈ GetOpenPorts t conns ∧ r.pid = q) := by
  refine ⟨List.filter_sublist _, ?_, List.filter_sublist _, ?_⟩
  · intro r
    simp [GetPortInfoByPort, List.mem_filter]
  · intro r
    simp [GetPortsByPID, List.mem_filter]

/-- C10: every record emitted by `GetOpenPorts` has protocol "TCP": the
protocol is derived solely from the status string (`getProtocol` answers
"UDP" exactly when the lowered status contains "udp"), and retained
connections all have status "LISTEN". -/
theorem tcp_protocol_only (t : ProcTable) (conns : List ConnectionStat) :
    (∀ r ∈ GetOpenPorts t conns, r.protocol = "TCP") ∧
      ∀ c : ConnectionStat,
        getProtocol c = "UDP" ↔ goContains (goToLower c.status) "udp" = true := by
  refine ⟨fun r h => (mem_getOpenPorts t conns r h).2, ?_⟩
  intro c
  rw [getProtocol]
  by_cases hc : goContains (goToLower c.status) "udp" = true
  · simp [hc]
  · have hb : goContains (goToLower c.status) "udp" = false := by
      simpa using hc
    rw [hb]
    decide

/-- Witness for C10: the concretely collected record carries protocol "TCP". -/
theorem tcp_protocol_only_witness :
    wRec ∈ GetOpenPorts wT wConns ∧ wRec.protocol = "TCP" :=
  ⟨by decide, (tcp_protocol_only wT wConns).1 wRec (by decide)⟩

/-- C6: `GetOpenPorts` output is monotonically non-decreasing in `portNumber`
and `GetUserApplications` output is monotonically non-decreasing in `pid`. -/
theorem canonical_sort_order (t : ProcTable) (conns : List ConnectionStat)
    (os : String) (procs : List Proc) :
    List.Pairwise (fun a b => a.port ≤ b.port) (GetOpenPorts t conns) ∧
      List.Pairwise (fun a b => a.pid ≤ b.pid) (GetUserApplications os procs) := by
  constructor
  · have h := selSort_pairwise (fun r : PortInfo => (r.port : Int))
      ((buildPortMap t conns).map Prod.snd)
    rw [GetOpenPorts]
    exact h.imp (fun hab => by exact_mod_cast hab)
  · exact selSort_pairwise _ _

/-! ## Claim theorems: process classification -/

theorem processEntry_eq_some (os : String) (p : Proc) (r : ProcessInfo)
    (h : processEntry os p = some r) :
    p.name = some r.name ∧
      isSystemProcess r.name (getSystemPrefixes os) = false ∧
      p.exe = some r.path ∧ p.username = some r.user ∧
      isSystemUser r.user os = false ∧ r.user ≠ "" ∧ r.pid = p.pid := by
  cases hn : p.name with
  | none =>
    simp only [processEntry, hn] at h
    exact Option.noConfusion h
  | some name =>
    simp only [processEntry, hn] at h
    by_cases hsp : isSystemProcess name (getSystemPrefixes os)
    · rw [if_pos hsp] at h; exact absurd h (by simp)
    · rw [if_neg hsp] at h
      cases hx : p.exe with
      | none =>
        simp only [hx] at h
        exact Option.noConfusion h
      | some exe =>
        simp only [hx] at h
        cases hu : p.username with
        | none =>
          simp only [hu] at h
          exact Option.noConfusion h
        | some u =>
          simp only [hu] at h
          by_cases hsu : isSystemUser u os
          · rw [if_pos hsu] at h; exact absurd h (by simp)
          · rw [if_neg hsu] at h
            by_cases hue : u = ""
            · rw [if_pos hue] at h; exact absurd h (by simp)
            · rw [if_neg hue] at h
              have hr := Option.some.inj h
              subst hr
              exact ⟨rfl, by simpa using hsp, rfl, rfl, by simpa using hsu, hue, rfl⟩

theorem processEntry_isSome_iff (os : String) (p : Proc) :
    (processEntry os p).isSome = true ↔
      ∃ n x u, p.name = some n ∧
        isSystemProcess n (getSystemPrefixes os) = false ∧
        p.exe = some x ∧ p.username = some u ∧
        isSystemUser u os = false ∧ u ≠ "" := by
  constructor
  · intro h
    obtain ⟨r, hr⟩ := Option.isSome_iff_exists.mp h
    obtain ⟨h1, h2, h3, h4, h5, h6, _⟩ := processEntry_eq_some os p r hr
    exact ⟨r.name, r.path, r.user, h1, h2, h3, h4, h5, h6⟩
  · rintro ⟨n, x, u, hn, hsp, hx, hu, hsu, hue⟩
    simp only [processEntry, hn, hx, hu]
    rw [if_neg (by simp [hsp]), if_neg (by simp [hsu]), if_neg hue]
    rfl

/-- C3 (corrected): every record returned by `GetUserApplications` has a
successfully fetched executable path (which may be the empty string), a
non-empty, non-system owning user and a non-system name; a process is
included exactly when its name fetch succeeds with a name matching no system
prefix, its executable fetch succeeds, and its username fetch succeeds with a
non-empty, non-system account — name-prefix and account matching are
case-insensitive (witnessed on concrete mixed-case inputs). -/
theorem user_app_classification (os : String) (procs : List Proc) :
    (∀ r ∈ GetUserApplications os procs,
        r.user ≠ "" ∧ isSystemUser r.user os = false ∧
        isSystemProcess r.name (getSystemPrefixes os) = false ∧
        ∃ p ∈ procs, p.name = some r.name ∧ p.exe = some r.path ∧
          p.username = some r.user) ∧
      (∀ p : Proc, (processEntry os p).isSome = true ↔
        ∃ n x u, p.name = some n ∧
          isSystemProcess n (getSystemPrefixes os) = false ∧
          p.exe = some x ∧ p.username = some u ∧
          isSystemUser u os = false ∧ u ≠ "") ∧
      isSystemProcess "COM.APPLE.finder" (getSystemPrefixes "darwin") = true ∧
      isSystemUser "Root" "linux" = true := by
  refine ⟨?_, fun p => processEntry_isSome_iff os p, by decide, by decide⟩
  intro r hr
  have hmem : r ∈ procs.filterMap (processEntry os) :=
    (selSort_perm _ _).mem_iff.mp hr
  obtain ⟨p, hp, hpe⟩ := List.mem_filterMap.mp hmem
  obtain ⟨h1, h2, h3, h4, h5, h6, _⟩ := processEntry_eq_some os p r hpe
  exact ⟨h6, h5, h2, p, hp, h1, h3, h4⟩

/-- Witness for C3: on a one-process table (`Chrome` owned by `alice`), the
emitted record has user "alice", non-system on darwin. -/
theorem user_app_classification_witness :
    chromeRec ∈ GetUserApplications "darwin" [e2] ∧
      chromeRec.user ≠ "" ∧ isSystemUser chromeRec.user "darwin" = false ∧
      isSystemProcess chromeRec.name (getSystemPrefixes "darwin") = false ∧
      ∃ p ∈ [e2], p.name = some chromeRec.name ∧ p.exe = some chromeRec.path ∧
        p.username = some chromeRec.user := by
  have h := (user_app_classification "darwin" [e2]).1 chromeRec (by decide)
  exact ⟨by decide, h⟩

/-- Counterexample for C3 as stated: (a) a process whose `Exe` fetch succeeds
with the empty string is emitted with empty `executablePath`; (b) a process
matching none of the claim's three exclusion conditions (its name "myapp2"
matches no system prefix, its user "alice" is neither a system account nor
empty) is nevertheless excluded, because its `Exe` fetch fails. -/
theorem user_app_counterexample :
    (GetUserApplications "darwin" [e0]).map (fun r => r.path) = [""] ∧
      isSystemProcess "myapp2" (getSystemPrefixes "darwin") = false ∧
      isSystemUser "alice" "darwin" = false ∧
      GetUserApplications "darwin" [e1] = [] := by
  decide

/-! ## Claim theorems: resource sampler -/

/-- On a resolvable pid with successful memory-info retrieval, the sampler
succeeds and every other failed sub-sample defaults to its zero value. -/
theorem resource_ok_record (t : ProcTable) (pid : Int) (p : Proc)
    (mi : Option (Nat × Nat)) (hp : t pid = some p) (hm : p.memInfo = some mi) :
    GetProcessResourceUsage t pid =
      .ok { pid := pid
            name := p.name.getD ""
            cpuPercent := p.cpu.getD 0
            memoryPercent := p.memPercent.getD 0
            memoryRSS := (mi.map Prod.fst).getD 0
            memoryVMS := (mi.map Prod.snd).getD 0
            memoryHuman := FormatBytes ((mi.map Prod.fst).getD 0)
            cpuHuman := FormatCPU (p.cpu.getD 0)
            threads := p.numThreads.getD 0
            openFiles := p.numFDs.getD 0 } := by
  simp only [GetProcessResourceUsage, hp, hm]

/-- C7: `GetProcessResourceUsage` fails exactly when the pid does not resolve
(NotFound) or when memory-info retrieval fails; a failure of any other
sub-sample (name, CPU percent, memory percent, thread count, open-file count)
leaves that field at its zero value while the call succeeds with the full
record. -/
theorem resource_error_contract (t : ProcTable) (pid : Int) :
    (GetProcessResourceUsage t pid = .error .notFound ↔ t pid = none) ∧
      (∀ p, t pid = some p →
        (GetProcessResourceUsage t pid = .error .memInfoFailed ↔ p.memInfo = none)) ∧
      (∀ p mi, t pid = some p → p.memInfo = some mi →
        GetProcessResourceUsage t pid =
          .ok { pid := pid
                name := p.name.getD ""
                cpuPercent := p.cpu.getD 0
                memoryPercent := p.memPercent.getD 0
                memoryRSS := (mi.map Prod.fst).getD 0
                memoryVMS := (mi.map Prod.snd).getD 0
                memoryHuman := FormatBytes ((mi.map Prod.fst).getD 0)
                cpuHuman := FormatCPU (p.cpu.getD 0)
                threads := p.numThreads.getD 0
                openFiles := p.numFDs.getD 0 }) := by
  refine ⟨?_, ?_, ?_⟩
  · cases ht : t pid with
    | none => simp [GetProcessResourceUsage, ht]
    | some p =>
      simp only [GetProcessResourceUsage, ht]
      cases p.memInfo with
      | none => simp
      | some mi => simp
  · intro p hp
    simp only [GetProcessResourceUsage, hp]
    cases hm : p.memInfo with
    | none => simp
    | some mi => simp
  · intro p mi hp hm
    exact resource_ok_record t pid p mi hp hm

/-- Witness for C7: a nonexistent pid yields NotFound; a pid whose memory-info
fetch fails yields the memory error; a pid whose name/CPU/memory-percent/
thread fetches all fail succeeds with those fields zeroed. -/
theorem resource_error_contract_witness :
    rT 12 = none ∧ GetProcessResourceUsage rT 12 = .error .notFound ∧
      rT 8 = some rProcB ∧ rProcB.memInfo = none ∧
      GetProcessResourceUsage rT 8 = .error .memInfoFailed ∧
      GetProcessResourceUsage rT 7 = .ok rRecA :=
  ⟨rfl, (resource_error_contract rT 12).1.mpr rfl, rfl, rfl,
    ((resource_error_contract rT 8).2.1 rProcB rfl).mpr rfl,
    (resource_error_contract rT 7).2.2 rProcA (some (512, 700)) rfl rfl⟩

/-! ## Claim theorems: CPU formatting -/

/-- C9 (corrected): the stored `cpuPercent` is the raw sampled value and is
not clamped (it can exceed 100); only the human-readable rendering clamps:
`FormatCPU` yields "< 0.01%" below 0.01 (= `mkRat 1 100`) and "100%" at or
above 100, and `cpuHuman` is `FormatCPU` of the stored value. -/
theorem cpu_format_clamps (q : ℚ) (t : ProcTable) (pid : Int) (p : Proc)
    (mi : Option (Nat × Nat)) :
    (q < mkRat 1 100 → FormatCPU q = "< 0.01%") ∧
      (100 ≤ q → FormatCPU q = "100%") ∧
      (t pid = some p → p.memInfo = some mi →
        ∃ r, GetProcessResourceUsage t pid = .ok r ∧
          r.cpuPercent = p.cpu.getD 0 ∧ r.cpuHuman = FormatCPU (p.cpu.getD 0)) := by
  refine ⟨?_, ?_, ?_⟩
  · intro hq
    rw [FormatCPU, if_pos hq]
  · intro hq
    have hlt : ¬ q < mkRat 1 100 := by
      have h1 : (mkRat 1 100 : ℚ) ≤ 100 := by decide
      exact not_lt.mpr (le_trans h1 hq)
    rw [FormatCPU, if_neg hlt, if_pos (le_trans (by decide : (100:ℚ) ≤ 100) hq)]
  · intro hp hm
    exact ⟨_, resource_ok_record t pid p mi hp hm, rfl, rfl⟩

/-- Witness for C9: `FormatCPU 0.005 = "< 0.01%"`, `FormatCPU 150 = "100%"`,
and the sampled record for a process reporting 150% CPU carries
`cpuPercent = 150` with `cpuHuman = FormatCPU 150`. -/
theorem cpu_format_clamps_witness :
    FormatCPU (mkRat 1 200) = "< 0.01%" ∧ FormatCPU 150 = "100%" ∧
      ∃ r, GetProcessResourceUsage cT150 1 = .ok r ∧
        r.cpuPercent = cProc150.cpu.getD 0 ∧
        r.cpuHuman = FormatCPU (cProc150.cpu.getD 0) :=
  ⟨(cpu_format_clamps (mkRat 1 200) cT150 1 cProc150 (some (512, 600))).1 (by decide),
    (cpu_format_clamps 150 cT150 1 cProc150 (some (512, 600))).2.1 (by decide),
    (cpu_format_clamps 150 cT150 1 cProc150 (some (512, 600))).2.2 rfl rfl⟩

/-- Counterexample for C9 as stated: a successful `GetProcessResourceUsage`
call returns `cpuPercent = 150`, outside 0–100 — the stored field is not
clamped (only the rendering is). -/
theorem cpu_unclamped_counterexample :
    GetProcessResourceUsage cT150 1 = .ok c150Rec ∧ ¬ (c150Rec.cpuPercent ≤ 100) ∧
      c150Rec.cpuHuman = "100%" := by
  refine ⟨rfl, by decide, by decide⟩

/-! ## Claim theorems: windows -/

theorem goFieldsAux_ne_nil :
    ∀ (l cur : List Char) (x : List Char), x ∈ goFieldsAux l cur → x ≠ [] := by
  intro l
  induction l with
  | nil =>
    intro cur x hx
    rw [goFieldsAux] at hx
    by_cases hc : cur.isEmpty
    · rw [if_pos hc] at hx
      exact absurd hx (List.not_mem_nil x)
    · rw [if_neg hc] at hx
      have hx' : x = cur.reverse := by simpa using hx
      subst hx'
      simp only [ne_eq, List.reverse_eq_nil_iff]
      intro hcur
      exact hc (by simp [hcur])
  | cons c rest ih =>
    intro cur x hx
    rw [goFieldsAux] at hx
    by_cases hw : c.isWhitespace
    · rw [if_pos hw] at hx
      by_cases hc : cur.isEmpty
      · rw [if_pos hc] at hx
        exact ih [] x hx
      · rw [if_neg hc] at hx
        rcases List.mem_cons.mp hx with hx' | hx'
        · subst hx'
          simp only [ne_eq, List.reverse_eq_nil_iff]
          intro hcur
          exact hc (by simp [hcur])
        · exact ih [] x hx'
    · rw [if_neg hw] at hx
      exact ih (c :: cur) x hx

theorem goFields_ne_empty (s : String) : ∀ x ∈ goFields s, x ≠ "" := by
  intro x hx
  rw [goFields] at hx
  obtain ⟨l, hl, hxl⟩ := List.mem_map.mp hx
  subst hxl
  intro hcontra
  exact goFieldsAux_ne_nil s.toList [] l hl (congrArg String.data hcontra)

theorem goJoin_ne_empty (sep h : String) (t : List String) (hh : h ≠ "") :
    goJoin sep (h :: t) ≠ "" := by
  cases t with
  | nil => exact hh
  | cons y ys =>
    rw [goJoin]
    intro hcontra
    apply hh
    have hdata : (h ++ sep ++ goJoin sep (y :: ys)).data = [] :=
      congrArg String.data hcontra
    rw [String.data_append, String.data_append] at hdata
    rcases List.append_eq_nil.mp (List.append_eq_nil.mp hdata).1 with ⟨hd, _⟩
    exact String.ext hd

theorem guardedWindow_fields (title : String) (pid : Int) (appName : String)
    (r : WindowInfo) (h : guardedWindow title pid appName = some r) :
    r.title ≠ "" ∧ r.process ≠ "" := by
  unfold guardedWindow at h
  by_cases hg : appName ≠ "" ∧ title ≠ ""
  · rw [if_pos hg] at h
    have hr := Option.some.inj h
    subst hr
    exact ⟨hg.2, hg.1⟩
  · rw [if_neg hg] at h
    exact Option.noConfusion h

theorem parseMacLine_fields (env : WinEnv) (line0 : String) (r : WindowInfo)
    (h : parseMacLine env line0 = some r) : r.title ≠ "" ∧ r.process ≠ "" := by
  simp only [parseMacLine] at h
  split at h
  · exact Option.noConfusion h
  · split at h
    · exact Option.noConfusion h
    · split at h
      · exact guardedWindow_fields _ _ _ r h
      · exact Option.noConfusion h

theorem parseMacAltLine_fields (env : WinEnv) (line0 : String) (r : WindowInfo)
    (h : parseMacAltLine env line0 = some r) : r.title ≠ "" ∧ r.process ≠ "" := by
  simp only [parseMacAltLine] at h
  split at h
  · exact Option.noConfusion h
  · split at h
    · exact guardedWindow_fields _ _ _ r h
    · exact Option.noConfusion h

theorem linuxWinLine_title (env : WinEnv) (line : String) (r : WindowInfo)
    (h : linuxWinLine env line = some r) : r.title ≠ "" := by
  simp only [linuxWinLine] at h
  split at h
  case isTrue h5 =>
    have hr := Option.some.inj h
    subst hr
    obtain ⟨hd, tl, hdt⟩ : ∃ hd tl, (goFields line).drop 4 = hd :: tl := by
      cases hp : (goFields line).drop 4 with
      | nil =>
        exfalso
        have hlen := List.length_drop 4 (goFields line)
        rw [hp] at hlen
        simp only [List.length_nil] at hlen
        omega
      | cons a b => exact ⟨a, b, rfl⟩
    show goJoin " " ((goFields line).drop 4) ≠ ""
    rw [hdt]
    refine goJoin_ne_empty " " hd tl ?_
    refine goFields_ne_empty line hd ?_
    exact List.drop_subset 4 (goFields line) (hdt ▸ List.mem_cons_self hd tl)
  case isFalse => exact Option.noConfusion h

/-- C4 (corrected): on the macOS primary and fallback parse paths every
emitted WindowRecord has a non-empty title and a non-empty owner process name
(violating entries are dropped); on the Linux path the title is always
non-empty, but the owner process name is not guarded and may be empty (and
the Windows path guards neither field). -/
theorem window_nonempty_fields (env : WinEnv) (raw rawAlt rawL : Option String)
    (out outL : List WindowInfo) :
    (getMacOSWindows env raw rawAlt = .ok out →
      ∀ r ∈ out, r.title ≠ "" ∧ r.process ≠ "") ∧
      (getLinuxWindows env rawL = .ok outL → ∀ r ∈ outL, r.title ≠ "") := by
  constructor
  · intro hok r hr
    cases raw with
    | none => exact Except.noConfusion hok
    | some s =>
      simp only [getMacOSWindows] at hok
      by_cases hempty : parseMacPrimary env s = []
      · rw [if_pos hempty] at hok
        cases rawAlt with
        | none => exact Except.noConfusion hok
        | some s2 =>
          have hout := Except.ok.inj hok
          rw [← hout] at hr
          obtain ⟨line, _, hpl⟩ := List.mem_filterMap.mp hr
          exact parseMacAltLine_fields env line r hpl
      · rw [if_neg hempty] at hok
        have hout := Except.ok.inj hok
        rw [← hout] at hr
        obtain ⟨line, _, hpl⟩ := List.mem_filterMap.mp hr
        exact parseMacLine_fields env line r hpl
  · intro hok r hr
    cases rawL with
    | none => exact Except.noConfusion hok
    | some s =>
      have hout := Except.ok.inj hok
      rw [← hout] at hr
      obtain ⟨line, _, hpl⟩ := List.mem_filterMap.mp hr
      exact linuxWinLine_title env line r hpl

/-- Witness for C4: a concrete primary-parse output yields a record with
non-empty title "Start Page" and owner "Safari". -/
theorem window_nonempty_fields_witness :
    getMacOSWindows macEnv (some macRaw) none = .ok [macRec] ∧
      macRec.title ≠ "" ∧ macRec.process ≠ "" :=
  ⟨rfl,
    (window_nonempty_fields macEnv (some macRaw) none none [macRec] []).1
      rfl macRec (by decide)⟩

/-- Counterexample for C4 as stated: on the Linux path, a wmctrl line whose
pid has no resolvable process name is emitted with an empty owner process
name rather than being dropped. -/
theorem window_blank_owner_counterexample :
    getLinuxWindows linEnv (some linRaw) = .ok [linRec] ∧ linRec.process = "" :=
  ⟨rfl, rfl⟩

/-! ## Claim theorems: services -/

/-- C8: for a service entry whose pid parses positive, a failing resource
sample degrades the emitted record to name/status/pid only (all CPU/memory
fields left at their zero values) on both the macOS and the Linux paths, and
the whole service-listing call errors exactly when the primary listing
command itself failed. -/
theorem service_degradation (t : ProcTable) (showMainPID : String → Option String)
    (fields fieldsL : List String) (p : Int) (e : RErr) (rawOpt : Option String) :
    (goParseInt32 (fields.getD 0 "") = some p → p > 0 →
      GetProcessResourceUsage t p = .error e →
      macServiceRecord t fields =
        { name := goJoin " " (fields.drop 2), status := fields.getD 1 "", pid := p }) ∧
      ((∃ l, getMacOSServices t rawOpt = Except.ok l) ↔ rawOpt ≠ none) ∧
      (∀ out, showMainPID (fieldsL.getD 0 "") = some out →
        goTrim out ≠ "0" → goTrim out ≠ "" →
        goParseInt32 (goTrim out) = some p → p > 0 →
        GetProcessResourceUsage t p = .error e →
        linuxServiceRecord t showMainPID fieldsL =
          { name := goReplaceAll (fieldsL.getD 0 "") ".service" "",
            status := fieldsL.getD 2 "", pid := p }) ∧
      ((∃ l, getLinuxServices t showMainPID rawOpt = Except.ok l) ↔ rawOpt ≠ none) := by
  refine ⟨?_, ?_, ?_, ?_⟩
  · intro hparse hp herr
    simp only [macServiceRecord, hparse]
    rw [if_neg (not_le.mpr hp)]
    simp only [herr]
  · cases rawOpt with
    | none => simp [getMacOSServices]
    | some s => simp [getMacOSServices]
  · intro out hshow h0 hne hparse hp herr
    simp only [linuxServiceRecord, hshow]
    rw [if_pos ⟨h0, hne⟩]
    simp only [hparse]
    rw [if_pos hp]
    simp only [herr]
  · cases rawOpt with
    | none => simp [getLinuxServices]
    | some s => simp [getLinuxServices]

/-- Witness for C8: `launchctl` entry "42 0 com.example.app" whose pid 42 no
longer exists degrades to name/status/pid; likewise for the systemd unit
"nginx.service" with MainPID 42; and a failed listing command is the only
fatal case. -/
theorem service_degradation_witness :
    goParseInt32 (svFieldsMac.getD 0 "") = some 42 ∧
      GetProcessResourceUsage tNone 42 = .error .notFound ∧
      macServiceRecord tNone svFieldsMac =
        { name := "com.example.app", status := "0", pid := 42 } ∧
      linuxServiceRecord tNone svShow svFieldsLinux =
        { name := "nginx", status := "active", pid := 42 } ∧
      ¬ ∃ l, getMacOSServices tNone none = Except.ok l :=
  ⟨rfl, rfl,
    (service_degradation tNone svShow svFieldsMac svFieldsLinux 42 .notFound none).1
      rfl (by decide) rfl,
    (service_degradation tNone svShow svFieldsMac svFieldsLinux 42 .notFound none).2.2.1
      "42\n" rfl (by decide) (by decide) rfl (by decide) rfl,
    fun h =>
      ((service_degradation tNone svShow svFieldsMac svFieldsLinux 42 .notFound
        none).2.1.mp h) rfl⟩

end Gops
